import Mathlib

/-!
# Field-tracker core: shallow embedding

Shallow embedding of the assignment state machine, geometry validator and
proximity query of the field-operations tracking application, together with
proofs of its specification claims.

Conventions of the embedding:
* Database rows become Lean structures mirroring `db/schema.ts`; timestamps are
  `Nat` (an abstract clock value passed in as `now`, standing for the DB
  `defaultNow()` / `new Date()`), nullable columns are `Option`.
* The relational store becomes an explicit `Store` record threaded through the
  handlers; a SQL `UPDATE ... WHERE id = x` becomes a `List.map` that rewrites
  every row whose `id` matches, `SELECT ... WHERE id = x` a `List.find?`, and
  the serial primary key a `nextId` counter.
* A thrown `Error` becomes `Except.error` with a constructor per distinct
  throw site.
-/

namespace FieldTracker

/-- Assignment status enum, from `assignmentStatusEnum` in `db/schema.ts`. -/
inductive AssignmentStatus
  | assigned
  | in_progress
  | completed
deriving DecidableEq, Repr

/-- POI-task status enum, from `taskStatusEnum` in `db/schema.ts`. -/
inductive TaskStatus
  | assigned
  | completed
deriving DecidableEq, Repr

/-- A row of `zone_assignments`, from `zoneAssignmentsTable` in `db/schema.ts`. -/
structure ZoneAssignment where
  id : Nat
  zone_id : Nat
  user_id : Nat
  status : AssignmentStatus
  progress_houses : Nat
  assigned_at : Nat
  completed_at : Option Nat
deriving DecidableEq, Repr

/-- A row of `poi_tasks`, from `poiTasksTable` in `db/schema.ts`. -/
structure PoiTask where
  id : Nat
  poi_id : Nat
  user_id : Nat
  status : TaskStatus
  assigned_at : Nat
  completed_at : Option Nat
deriving DecidableEq, Repr

/-- The relational store visible to the assignment handlers: the sets of
existing zone ids and user ids, the `zone_assignments` and `poi_tasks` rows,
and the next value of the serial id sequence. -/
structure Store where
  zones : List Nat
  users : List Nat
  assignments : List ZoneAssignment
  tasks : List PoiTask
  nextId : Nat
deriving Repr

/-- Errors thrown by the handlers; one constructor per distinct `throw` site. -/
inductive DomainError
  | ZoneNotFound
  | UserNotFound
  | ZoneAlreadyAssigned
  | ZoneInProgress
  | AssignmentNotFound
  | AlreadyCompleted
  | TaskNotFound
deriving DecidableEq, Repr

/-- `assignZone` (handler in `src/unnamed/part_012`): checks that the zone and
the user exist, that no assignment for the zone has status `assigned` and none
has status `in_progress`, then inserts a fresh row with status `assigned` and
`progress_houses = 0`; `assigned_at` and `completed_at` take the schema
defaults `now` and `NULL`. -/
def assignZone (s : Store) (zoneId userId now : Nat) :
    Except DomainError (Store × ZoneAssignment) :=
  if ¬ s.zones.contains zoneId then
    .error .ZoneNotFound
  else if ¬ s.users.contains userId then
    .error .UserNotFound
  else if s.assignments.any (fun a => a.zone_id == zoneId && a.status == .assigned) then
    .error .ZoneAlreadyAssigned
  else if s.assignments.any (fun a => a.zone_id == zoneId && a.status == .in_progress) then
    .error .ZoneInProgress
  else
    let a : ZoneAssignment :=
      { id := s.nextId, zone_id := zoneId, user_id := userId,
        status := .assigned, progress_houses := 0,
        assigned_at := now, completed_at := none }
    .ok ({ s with assignments := s.assignments ++ [a], nextId := s.nextId + 1 }, a)

/-- The row rewrite performed by `updateProgress`'s `UPDATE` statement. -/
def progressUpdateRow (assignmentId : Nat) (progressHouses : Nat)
    (newStatus : AssignmentStatus) (a : ZoneAssignment) : ZoneAssignment :=
  if a.id == assignmentId then
    { a with progress_houses := progressHouses, status := newStatus }
  else a

/-- `updateProgress` (handler in `src/server/src/handlers`, stored alongside
`get_user_poi_tasks.ts`): looks the assignment up, fails with
`AssignmentNotFound` when absent; otherwise computes the new status (`assigned`
becomes `in_progress`, anything else is kept) and updates `progress_houses`
and `status` on the matching row, returning the updated row. -/
def updateProgress (s : Store) (assignmentId progressHouses : Nat) :
    Except DomainError (Store × ZoneAssignment) :=
  match s.assignments.find? (fun a => a.id == assignmentId) with
  | none => .error .AssignmentNotFound
  | some a0 =>
    let newStatus := if a0.status == .assigned then .in_progress else a0.status
    let newAssignments :=
      s.assignments.map (progressUpdateRow assignmentId progressHouses newStatus)
    match newAssignments.find? (fun a => a.id == assignmentId) with
    | none => .error .AssignmentNotFound
    | some a1 => .ok ({ s with assignments := newAssignments }, a1)

/-- The row rewrite performed by `completeZone`'s `UPDATE` statement. -/
def completeRow (assignmentId now : Nat) (a : ZoneAssignment) : ZoneAssignment :=
  if a.id == assignmentId then
    { a with status := .completed, completed_at := some now }
  else a

/-- `completeZone` (handler in `complete_zone.ts`): looks the assignment up,
fails with `AssignmentNotFound` when absent and with `AlreadyCompleted` when
its status is already `completed`; otherwise sets status `completed` and
`completed_at = now` on the matching row, returning the updated row. -/
def completeZone (s : Store) (assignmentId now : Nat) :
    Except DomainError (Store × ZoneAssignment) :=
  match s.assignments.find? (fun a => a.id == assignmentId) with
  | none => .error .AssignmentNotFound
  | some a0 =>
    if a0.status == .completed then
      .error .AlreadyCompleted
    else
      let newAssignments := s.assignments.map (completeRow assignmentId now)
      match newAssignments.find? (fun a => a.id == assignmentId) with
      | none => .error .AssignmentNotFound
      | some a1 => .ok ({ s with assignments := newAssignments }, a1)

/-- The row rewrite performed by `completePoiTask`'s `UPDATE` statement. -/
def completeTaskRow (taskId now : Nat) (t : PoiTask) : PoiTask :=
  if t.id == taskId then
    { t with status := .completed, completed_at := some now }
  else t

/-- `completePoiTask` (handler in `complete_poi_task.ts`): runs the `UPDATE`
unconditionally — every row with the given id gets status `completed` and a
fresh `completed_at` — and fails with `TaskNotFound` exactly when the update
matched no row. -/
def completePoiTask (s : Store) (taskId now : Nat) :
    Except DomainError (Store × PoiTask) :=
  let newTasks := s.tasks.map (completeTaskRow taskId now)
  match newTasks.find? (fun t => t.id == taskId) with
  | none => .error .TaskNotFound
  | some t1 => .ok ({ s with tasks := newTasks }, t1)


/-! ## Operation sequences and invariants -/

/-- A small concrete store used to instantiate the contract theorems: zone 1
has an `assigned` assignment (id 1), zone 2 a `completed` one (id 2); POI
task 1 is `assigned`, task 2 already `completed`. -/
def sampleStore : Store :=
  { zones := [1, 2], users := [2, 3],
    assignments := [⟨1, 1, 2, .assigned, 0, 0, none⟩, ⟨2, 2, 3, .completed, 5, 0, some 3⟩],
    tasks := [⟨1, 1, 2, .assigned, 0, none⟩, ⟨2, 2, 3, .completed, 0, some 2⟩],
    nextId := 3 }

/-- One call of the assignment state machine, with its clock value. -/
inductive Op
  | assign (zoneId userId now : Nat)
  | progress (assignmentId progressHouses : Nat)
  | complete (assignmentId now : Nat)

/-- Run one operation; a failed call leaves the store unchanged (each handler
throws before writing anything). -/
def applyOp (s : Store) : Op → Store
  | .assign z u n =>
    match assignZone s z u n with
    | .ok (s1, _) => s1
    | .error _ => s
  | .progress i p =>
    match updateProgress s i p with
    | .ok (s1, _) => s1
    | .error _ => s
  | .complete i n =>
    match completeZone s i n with
    | .ok (s1, _) => s1
    | .error _ => s

/-- Run a sequence of operations left to right. -/
def runOps (s : Store) (ops : List Op) : Store := ops.foldl applyOp s

/-- Whether an assignment counts as *active* (status `assigned` or
`in_progress`). -/
def isActive (a : ZoneAssignment) : Bool :=
  a.status == .assigned || a.status == .in_progress

/-- Number of active assignments of a zone. -/
def activeCount (s : Store) (z : Nat) : Nat :=
  (s.assignments.filter (fun a => a.zone_id == z && isActive a)).length

/-- Well-formedness the serial primary key provides: row ids are pairwise
distinct and below the sequence counter. -/
def IdsOk (s : Store) : Prop :=
  (s.assignments.map (fun a => a.id)).Nodup ∧ ∀ a ∈ s.assignments, a.id < s.nextId

/-- Invariant: `completed_at` is non-null iff status is `completed`. -/
def CompletedAtOk (s : Store) : Prop :=
  ∀ a ∈ s.assignments, (a.completed_at ≠ none ↔ a.status = .completed)

/-- A store with no assignments yet. -/
def initialStore (zones users : List Nat) (tasks : List PoiTask) (nextId : Nat) : Store :=
  { zones := zones, users := users, assignments := [], tasks := tasks, nextId := nextId }

/-! ## Geometry validation -/

/-- A JSON value: the result of a successful `JSON.parse`. Numbers are
integers here; the validators only ever test `typeof x === 'number'`. -/
inductive Json
  | null
  | bool (b : Bool)
  | num (n : Int)
  | str (s : String)
  | arr (elements : List Json)
  | obj (fields : List (String × Json))

/-- JavaScript truthiness of a JSON value (`0`, `''`, `null`, `false` are
falsy; arrays and objects are truthy). -/
def Json.truthy : Json → Bool
  | .null => false
  | .bool b => b
  | .num n => n != 0
  | .str s => !s.isEmpty
  | .arr _ => true
  | .obj _ => true

/-- Property access `value.key`: `undefined` (here `none`) on non-objects and
missing keys. -/
def Json.get? : Json → String → Option Json
  | .obj fields, key => fields.lookup key
  | _, _ => none

/-- Truthiness of a possibly-undefined value (`undefined` is falsy). -/
def truthy? : Option Json → Bool
  | none => false
  | some j => j.truthy

/-- `typeof v === 'number'`. -/
def Json.isNumber : Json → Bool
  | .num _ => true
  | _ => false

/-- Whether a possibly-undefined value is strictly equal (`===`) to the string
literal `"Polygon"`. -/
def isPolygonLiteral : Option Json → Bool
  | some (.str t) => t == "Polygon"
  | _ => false

/-- The per-coordinate test of `validateGeoJSONGeometry`
(`src/unnamed/part_007`): the source rejects a coordinate when
`!Array.isArray(coord) || coord.length < 2 || typeof coord[0] !== 'number' ||
typeof coord[1] !== 'number'`; this is the accepted complement. Note the
source demands *at least* two entries, with only the first two checked to be
numbers. -/
def validCoord : Json → Bool
  | .arr xs => decide (2 ≤ xs.length) && (xs.getD 0 .null).isNumber && (xs.getD 1 .null).isNumber
  | _ => false

/-- The per-ring test: an array of at least 4 coordinates, all valid. -/
def validRing : Json → Bool
  | .arr coords => decide (4 ≤ coords.length) && coords.all validCoord
  | _ => false

/-- `validateGeoJSONGeometry` from `src/unnamed/part_007`, taken over the
result of `JSON.parse` of its string argument (`none` when the parse threw,
which the surrounding `try` turns into `false`). The source returns a plain
boolean: every rejection — malformed JSON, wrong `type`, bad `coordinates`,
bad ring — yields the same `false`. -/
def validateGeoJSONGeometry (parseResult : Option Json) : Bool :=
  match parseResult with
  | none => false
  | some parsed =>
    if !truthy? (parsed.get? "type") || !truthy? (parsed.get? "coordinates") then
      false
    else if !isPolygonLiteral (parsed.get? "type") then
      false
    else
      match parsed.get? "coordinates" with
      | some (.arr rings) => !rings.isEmpty && rings.all validRing
      | _ => false

/-! ## Zone update -/

/-- A row of `zones`, from `zonesTable` in `db/schema.ts`. The stored GeoJSON
text is modelled by its parse result. -/
structure ZoneRec where
  id : Nat
  name : String
  description : Option String
  geometry : Option Json
  estimated_houses : Nat
  created_by : Nat
  created_at : Nat
  updated_at : Nat

/-- Errors thrown by `updateZone`; one constructor per throw site. -/
inductive UpdateZoneError
  | ZoneNotFound
  | InvalidJSONFormat
  | MustBePolygon
  | InvalidCoordinates
deriving DecidableEq, Repr

/-- Input of `updateZone` (`UpdateZoneInput`): besides the id, every field is
optional. A provided geometry is, as above, the parse result of the given
text. -/
structure UpdateZoneInput where
  id : Nat
  name : Option String
  description : Option (Option String)
  geometry : Option (Option Json)
  estimated_houses : Option Nat

/-- The inline geometry validation of `updateZone` (`update_zone.ts`): a parse
failure throws `Invalid JSON format for geometry`; a missing, falsy or
non-`"Polygon"` `type` or a falsy `coordinates` throws
`Invalid GeoJSON format - must be a Polygon`; a non-array or empty
`coordinates` throws `Invalid GeoJSON coordinates`. Unlike
`validateGeoJSONGeometry` (used at zone creation), nothing inside the rings is
inspected. -/
def updateZoneValidateGeometry (g : Option Json) : Except UpdateZoneError Unit :=
  match g with
  | none => .error .InvalidJSONFormat
  | some parsed =>
    if !truthy? (parsed.get? "type")
        || !isPolygonLiteral (parsed.get? "type")
        || !truthy? (parsed.get? "coordinates") then
      .error .MustBePolygon
    else
      match parsed.get? "coordinates" with
      | some (.arr rings) => if rings.isEmpty then .error .InvalidCoordinates else .ok ()
      | _ => .error .InvalidCoordinates

/-- The field merge of `updateZone`'s `UPDATE`: only provided fields change,
and `updated_at` is refreshed. -/
def applyZoneUpdate (input : UpdateZoneInput) (now : Nat) (z : ZoneRec) : ZoneRec :=
  if z.id == input.id then
    { z with
      name := input.name.getD z.name,
      description := input.description.getD z.description,
      geometry := input.geometry.getD z.geometry,
      estimated_houses := input.estimated_houses.getD z.estimated_houses,
      updated_at := now }
  else z

/-- `updateZone` from `update_zone.ts`: checks that the zone exists, validates
the geometry only when one is provided (`if (input.geometry)`), then updates
the provided fields and returns the updated row. -/
def updateZone (zones : List ZoneRec) (input : UpdateZoneInput) (now : Nat) :
    Except UpdateZoneError (List ZoneRec × ZoneRec) :=
  match zones.find? (fun z => z.id == input.id) with
  | none => .error .ZoneNotFound
  | some _ =>
    let geometryCheck : Except UpdateZoneError Unit :=
      match input.geometry with
      | some g => updateZoneValidateGeometry g
      | none => .ok ()
    match geometryCheck with
    | .error e => .error e
    | .ok _ =>
      let newZones := zones.map (applyZoneUpdate input now)
      match newZones.find? (fun z => z.id == input.id) with
      | none => .error .ZoneNotFound
      | some z1 => .ok (newZones, z1)

/-! ## Proximity query -/

/-- POI type enum, from `poiTypeEnum` in `db/schema.ts`. -/
inductive PoiType
  | billboard
  | wall
  | other
deriving DecidableEq, Repr

/-- A row of `pois`, from `poisTable` in `db/schema.ts`; the DB numeric
coordinates are modelled as rationals. -/
structure Poi where
  id : Nat
  name : String
  description : Option String
  latitude : Rat
  longitude : Rat
  poi_type : PoiType
  created_by : Nat
  created_at : Nat
  updated_at : Nat
deriving DecidableEq, Repr

/-- `getNearbyPois` from `src/unnamed/part_009`. The SQL query computes per
row `distance_km`, the spherical-law-of-cosines great-circle distance from
`(latitude, longitude)` with Earth radius 6371 km — floating-point
trigonometry, abstracted here as the function `distanceKm` — keeps the rows
with `distance_km <= radiusKm` and orders them by `distance_km ASC`
(`ORDER BY` modelled, per the specification, as a stable sort). The radius
parameter defaults to 5 when the caller passes none. -/
def getNearbyPois (distanceKm : Poi → Rat) (radiusKm : Option Rat) (pois : List Poi) : List Poi :=
  let r := radiusKm.getD 5
  (pois.filter (fun p => decide (distanceKm p ≤ r))).mergeSort
    (fun a b => decide (distanceKm a ≤ distanceKm b))

end FieldTracker

namespace FieldTracker

/-! ## Basic row lemmas -/

theorem progressUpdateRow_id (i p : Nat) (st : AssignmentStatus) (a : ZoneAssignment) :
    (progressUpdateRow i p st a).id = a.id := by
  unfold progressUpdateRow; split <;> rfl

theorem completeRow_id (i now : Nat) (a : ZoneAssignment) :
    (completeRow i now a).id = a.id := by
  unfold completeRow; split <;> rfl

theorem completeTaskRow_id (i now : Nat) (t : PoiTask) :
    (completeTaskRow i now t).id = t.id := by
  unfold completeTaskRow; split <;> rfl

/-- `find?` on an id predicate commutes with a row rewrite that preserves ids. -/
theorem find?_map_id_preserving {f : ZoneAssignment → ZoneAssignment}
    (hf : ∀ a, (f a).id = a.id) (l : List ZoneAssignment) (i : Nat) :
    (l.map f).find? (fun a => a.id == i) = (l.find? (fun a => a.id == i)).map f := by
  rw [List.find?_map]
  have hp : ((fun a : ZoneAssignment => a.id == i) ∘ f) = (fun a : ZoneAssignment => a.id == i) := by
    funext a
    simp [Function.comp, hf]
  rw [hp]

theorem find?_map_id_preserving_task {f : PoiTask → PoiTask}
    (hf : ∀ t, (f t).id = t.id) (l : List PoiTask) (i : Nat) :
    (l.map f).find? (fun t => t.id == i) = (l.find? (fun t => t.id == i)).map f := by
  rw [List.find?_map]
  have hp : ((fun t : PoiTask => t.id == i) ∘ f) = (fun t : PoiTask => t.id == i) := by
    funext t
    simp [Function.comp, hf]
  rw [hp]

/-- Normal form of a successful `updateProgress`. -/
theorem updateProgress_ok (s : Store) (i p : Nat) (a0 : ZoneAssignment) (h : s.assignments.find? (fun a => a.id == i) = some a0) :
    updateProgress s i p = .ok ({ s with assignments := s.assignments.map (progressUpdateRow i p (if a0.status == AssignmentStatus.assigned then AssignmentStatus.in_progress else a0.status)) }, { a0 with progress_houses := p, status := if a0.status == AssignmentStatus.assigned then AssignmentStatus.in_progress else a0.status }) := by
  have ha0 : (a0.id == i) = true := by
    have := List.find?_some h
    simpa using this
  unfold updateProgress
  rw [h]
  simp only
  rw [find?_map_id_preserving (progressUpdateRow_id i p _) s.assignments i, h]
  simp [progressUpdateRow, ha0]

/-- Normal form of a successful `completeZone`. -/
theorem completeZone_ok (s : Store) (i now : Nat) (a0 : ZoneAssignment) (h : s.assignments.find? (fun a => a.id == i) = some a0) (hst : a0.status ≠ .completed) :
    completeZone s i now = .ok ({ s with assignments := s.assignments.map (completeRow i now) }, { a0 with status := AssignmentStatus.completed, completed_at := some now }) := by
  have ha0 : (a0.id == i) = true := by
    have := List.find?_some h
    simpa using this
  unfold completeZone
  rw [h]
  simp only
  rw [if_neg (show ¬ (a0.status == AssignmentStatus.completed) = true by simp [beq_eq_false_iff_ne, hst])]
  rw [find?_map_id_preserving (completeRow_id i now) s.assignments i, h]
  simp [completeRow, ha0]

/-- Normal form of a successful `completePoiTask`. -/
theorem completePoiTask_ok (s : Store) (i now : Nat) (t0 : PoiTask) (h : s.tasks.find? (fun t => t.id == i) = some t0) :
    completePoiTask s i now = .ok ({ s with tasks := s.tasks.map (completeTaskRow i now) }, { t0 with status := TaskStatus.completed, completed_at := some now }) := by
  have ht0 : (t0.id == i) = true := by
    have := List.find?_some h
    simpa using this
  unfold completePoiTask
  simp only
  rw [find?_map_id_preserving_task (completeTaskRow_id i now) s.tasks i, h]
  simp [completeTaskRow, ht0]

end FieldTracker

namespace FieldTracker

/-! ## Contracts of the four operations -/

/-- C2: `assignZone` error taxonomy and success effect. `ZoneNotFound` when the
zone id is unknown; `UserNotFound` when the user id is unknown; then
`ZoneAlreadyAssigned` if some assignment for the zone has status `assigned`,
`ZoneInProgress` if none is `assigned` but some is `in_progress`; otherwise —
in particular when every assignment for the zone is neither `assigned` nor
`in_progress`, regardless of its user — it inserts and returns a fresh
assignment with status `assigned`, `progress_houses = 0`, `assigned_at = now`
and `completed_at = null`. -/
theorem assignZone_contract (s : Store) (z u now : Nat) :
    (z ∉ s.zones → assignZone s z u now = .error .ZoneNotFound) ∧
    (z ∈ s.zones → u ∉ s.users → assignZone s z u now = .error .UserNotFound) ∧
    (z ∈ s.zones → u ∈ s.users →
      (∃ a ∈ s.assignments, a.zone_id = z ∧ a.status = .assigned) →
      assignZone s z u now = .error .ZoneAlreadyAssigned) ∧
    (z ∈ s.zones → u ∈ s.users →
      (∀ a ∈ s.assignments, a.zone_id = z → a.status ≠ .assigned) →
      (∃ a ∈ s.assignments, a.zone_id = z ∧ a.status = .in_progress) →
      assignZone s z u now = .error .ZoneInProgress) ∧
    (z ∈ s.zones → u ∈ s.users →
      (∀ a ∈ s.assignments, a.zone_id = z → a.status ≠ .assigned ∧ a.status ≠ .in_progress) →
      assignZone s z u now = .ok ({ s with assignments := s.assignments ++ [⟨s.nextId, z, u, .assigned, 0, now, none⟩], nextId := s.nextId + 1 }, ⟨s.nextId, z, u, .assigned, 0, now, none⟩)) := by
  refine ⟨?_, ?_, ?_, ?_, ?_⟩
  · intro hz
    simp [assignZone, hz]
  · intro hz hu
    simp [assignZone, hz, hu]
  · intro hz hu ⟨a, ha, haz, hast⟩
    have hany : s.assignments.any (fun a => a.zone_id == z && a.status == .assigned) = true := by
      simp only [List.any_eq_true, Bool.and_eq_true, beq_iff_eq]
      exact ⟨a, ha, haz, hast⟩
    simp [assignZone, hz, hu, hany]
  · intro hz hu hnone ⟨a, ha, haz, hast⟩
    have hany1 : s.assignments.any (fun a => a.zone_id == z && a.status == .assigned) = false := by
      simp only [List.any_eq_false, Bool.and_eq_true, beq_iff_eq, not_and]
      exact fun a ha haz => hnone a ha haz
    have hany2 : s.assignments.any (fun a => a.zone_id == z && a.status == .in_progress) = true := by
      simp only [List.any_eq_true, Bool.and_eq_true, beq_iff_eq]
      exact ⟨a, ha, haz, hast⟩
    simp [assignZone, hz, hu, hany1, hany2]
  · intro hz hu hnone
    have hany1 : s.assignments.any (fun a => a.zone_id == z && a.status == .assigned) = false := by
      simp only [List.any_eq_false, Bool.and_eq_true, beq_iff_eq, not_and]
      exact fun a ha haz => (hnone a ha haz).1
    have hany2 : s.assignments.any (fun a => a.zone_id == z && a.status == .in_progress) = false := by
      simp only [List.any_eq_false, Bool.and_eq_true, beq_iff_eq, not_and]
      exact fun a ha haz => (hnone a ha haz).2
    simp [assignZone, hz, hu, hany1, hany2]

/-- C3: `updateProgress` sets `progress_houses` to exactly the given value
(even when lower than before), moves status `assigned → in_progress`, keeps
`in_progress` and `completed` unchanged, and fails with `AssignmentNotFound`
when the assignment does not exist. -/
theorem updateProgress_contract (s : Store) (i p : Nat) :
    (s.assignments.find? (fun a => a.id == i) = none →
      updateProgress s i p = .error .AssignmentNotFound) ∧
    (∀ a0, s.assignments.find? (fun a => a.id == i) = some a0 →
      ∃ s' a1, updateProgress s i p = .ok (s', a1) ∧
        a1.progress_houses = p ∧
        (a0.status = .assigned → a1.status = .in_progress) ∧
        (a0.status = .in_progress → a1.status = .in_progress) ∧
        (a0.status = .completed → a1.status = .completed)) := by
  constructor
  · intro h
    unfold updateProgress
    rw [h]
  · intro a0 h
    refine ⟨_, _, updateProgress_ok s i p a0 h, rfl, ?_, ?_, ?_⟩ <;>
      intro hst <;> simp [hst]

/-- C4: `completeZone` fails with `AssignmentNotFound` when the assignment is
absent and `AlreadyCompleted` when its status is `completed`; otherwise it
sets status `completed` and a non-null `completed_at`, preserving
`progress_houses`. -/
theorem completeZone_contract (s : Store) (i now : Nat) :
    (s.assignments.find? (fun a => a.id == i) = none →
      completeZone s i now = .error .AssignmentNotFound) ∧
    (∀ a0, s.assignments.find? (fun a => a.id == i) = some a0 →
      a0.status = .completed → completeZone s i now = .error .AlreadyCompleted) ∧
    (∀ a0, s.assignments.find? (fun a => a.id == i) = some a0 →
      a0.status ≠ .completed →
      ∃ s' a1, completeZone s i now = .ok (s', a1) ∧
        a1.status = .completed ∧ a1.completed_at = some now ∧
        a1.completed_at ≠ none ∧ a1.progress_houses = a0.progress_houses) := by
  refine ⟨?_, ?_, ?_⟩
  · intro h
    unfold completeZone
    rw [h]
  · intro a0 h hst
    unfold completeZone
    rw [h]
    simp [hst]
  · intro a0 h hst
    exact ⟨_, _, completeZone_ok s i now a0 h hst, rfl, rfl, by simp, rfl⟩

/-- C5: `completePoiTask` succeeds on every existing task — including one that
is already `completed`, whose `completed_at` it refreshes — and fails with
`TaskNotFound` exactly when no task with the id exists, in which case the
underlying `UPDATE` rewrites no row. -/
theorem completePoiTask_contract (s : Store) (i now : Nat) :
    ((∀ t ∈ s.tasks, t.id ≠ i) →
      completePoiTask s i now = .error .TaskNotFound ∧
      s.tasks.map (completeTaskRow i now) = s.tasks) ∧
    (∀ t0, s.tasks.find? (fun t => t.id == i) = some t0 →
      ∃ s' t1, completePoiTask s i now = .ok (s', t1) ∧
        t1.status = .completed ∧ t1.completed_at = some now) := by
  constructor
  · intro h
    have hmap : s.tasks.map (completeTaskRow i now) = s.tasks := by
      have : ∀ t ∈ s.tasks, completeTaskRow i now t = t := by
        intro t ht
        unfold completeTaskRow
        rw [if_neg (by simp [h t ht])]
      calc s.tasks.map (completeTaskRow i now) = s.tasks.map id := List.map_congr_left this
        _ = s.tasks := List.map_id s.tasks
    refine ⟨?_, hmap⟩
    unfold completePoiTask
    simp only [hmap]
    rw [List.find?_eq_none.mpr (by intro t ht; simp [h t ht])]
  · intro t0 h
    exact ⟨_, _, completePoiTask_ok s i now t0 h, rfl, rfl⟩

/-- C10: `updateProgress` modifies only `progress_houses` and `status`: the
returned assignment keeps `zone_id`, `user_id`, `assigned_at` and
`completed_at` (so progress on a completed assignment does not clear its
completion timestamp), every stored row keeps those four fields position by
position, and no other part of the store changes. -/
theorem updateProgress_frame (s : Store) (i p : Nat) :
    ∀ a0, s.assignments.find? (fun a => a.id == i) = some a0 →
      ∃ s' a1, updateProgress s i p = .ok (s', a1) ∧
        a1.zone_id = a0.zone_id ∧ a1.user_id = a0.user_id ∧
        a1.assigned_at = a0.assigned_at ∧ a1.completed_at = a0.completed_at ∧
        s'.zones = s.zones ∧ s'.users = s.users ∧ s'.tasks = s.tasks ∧
        s'.nextId = s.nextId ∧
        ∀ j : Nat, (s'.assignments[j]?).map (fun b => (b.id, b.zone_id, b.user_id, b.assigned_at, b.completed_at)) = (s.assignments[j]?).map (fun b => (b.id, b.zone_id, b.user_id, b.assigned_at, b.completed_at)) := by
  intro a0 h
  refine ⟨_, _, updateProgress_ok s i p a0 h, rfl, rfl, rfl, rfl, rfl, rfl, rfl, rfl, ?_⟩
  intro j
  dsimp only
  simp only [List.getElem?_map]
  cases hj : s.assignments[j]? with
  | none => rfl
  | some b =>
    by_cases hb : (b.id == i) = true <;> simp [progressUpdateRow, hb]

end FieldTracker

namespace FieldTracker

/-! ## Witnesses for the contract theorems -/

/-- Witness for `assignZone_contract`: assigning zone 2 (whose only assignment
is `completed`) to user 3 succeeds with the specified fresh row. -/
theorem assignZone_contract_witness :
    assignZone sampleStore 2 3 9 = .ok ({ sampleStore with assignments := sampleStore.assignments ++ [⟨sampleStore.nextId, 2, 3, .assigned, 0, 9, none⟩], nextId := sampleStore.nextId + 1 }, ⟨sampleStore.nextId, 2, 3, .assigned, 0, 9, none⟩) :=
  (assignZone_contract sampleStore 2 3 9).2.2.2.2 (by decide) (by decide) (by decide)

/-- Witness for `updateProgress_contract`: id 99 is unknown, and updating
assignment 1 (status `assigned`) records 7 houses. -/
theorem updateProgress_contract_witness :
    updateProgress sampleStore 99 7 = .error .AssignmentNotFound ∧
    ∃ s1 a1, updateProgress sampleStore 1 7 = .ok (s1, a1) ∧ a1.progress_houses = 7 ∧ a1.status = .in_progress := by
  refine ⟨(updateProgress_contract sampleStore 99 7).1 rfl, ?_⟩
  obtain ⟨s1, a1, hok, hp, hA, _, _⟩ :=
    (updateProgress_contract sampleStore 1 7).2 ⟨1, 1, 2, .assigned, 0, 0, none⟩ rfl
  exact ⟨s1, a1, hok, hp, hA rfl⟩

/-- Witness for `completeZone_contract`: completing assignment 2 (already
`completed`) is rejected, completing assignment 1 succeeds. -/
theorem completeZone_contract_witness :
    completeZone sampleStore 2 8 = .error .AlreadyCompleted ∧
    ∃ s1 a1, completeZone sampleStore 1 8 = .ok (s1, a1) ∧ a1.status = .completed ∧ a1.completed_at = some 8 ∧ a1.progress_houses = 0 := by
  refine ⟨(completeZone_contract sampleStore 2 8).2.1 ⟨2, 2, 3, .completed, 5, 0, some 3⟩ rfl rfl, ?_⟩
  obtain ⟨s1, a1, hok, hst, hc, _, hp⟩ :=
    (completeZone_contract sampleStore 1 8).2.2 ⟨1, 1, 2, .assigned, 0, 0, none⟩ rfl (by decide)
  exact ⟨s1, a1, hok, hst, hc, hp⟩

/-- Witness for `completePoiTask_contract`: id 99 is unknown and nothing is
rewritten; re-completing the already-completed task 2 succeeds and refreshes
`completed_at`. -/
theorem completePoiTask_contract_witness :
    (completePoiTask sampleStore 99 6 = .error .TaskNotFound ∧
      sampleStore.tasks.map (completeTaskRow 99 6) = sampleStore.tasks) ∧
    ∃ s1 t1, completePoiTask sampleStore 2 6 = .ok (s1, t1) ∧ t1.status = .completed ∧ t1.completed_at = some 6 := by
  refine ⟨(completePoiTask_contract sampleStore 99 6).1 (by decide), ?_⟩
  obtain ⟨s1, t1, hok, hst, hc⟩ :=
    (completePoiTask_contract sampleStore 2 6).2 ⟨2, 2, 3, .completed, 0, some 2⟩ rfl
  exact ⟨s1, t1, hok, hst, hc⟩

/-- Witness for `updateProgress_frame`: recording progress on the completed
assignment 2 keeps its non-null `completed_at` and all frame fields. -/
theorem updateProgress_frame_witness :
    ∃ s1 a1, updateProgress sampleStore 2 9 = .ok (s1, a1) ∧ a1.completed_at = some 3 ∧ a1.zone_id = 2 ∧ a1.user_id = 3 ∧ a1.assigned_at = 0 := by
  obtain ⟨s1, a1, hok, hz, hu, ha, hc, -, -, -, -, -⟩ :=
    updateProgress_frame sampleStore 2 9 ⟨2, 2, 3, .completed, 5, 0, some 3⟩ rfl
  exact ⟨s1, a1, hok, hc, hz, hu, ha⟩

end FieldTracker

namespace FieldTracker

/-! ## Invariant machinery for the state machine -/

/-- In a list with pairwise-distinct ids, a member whose id matches the search
key is the row `find?` returns. -/
theorem eq_find?_of_nodup {l : List ZoneAssignment}
    (hnd : (l.map (fun a => a.id)).Nodup) {a b : ZoneAssignment} {i : Nat}
    (hfind : l.find? (fun x => x.id == i) = some b) (ha : a ∈ l) (hai : a.id = i) :
    a = b := by
  induction l with
  | nil => cases ha
  | cons c l ih =>
    simp only [List.map_cons, List.nodup_cons] at hnd
    rw [List.find?_cons_eq_some] at hfind
    rcases hfind with ⟨hpc, rfl⟩ | ⟨hnc, hfind⟩
    · rcases List.mem_cons.mp ha with rfl | ha
      · rfl
      · refine absurd ?_ hnd.1
        rw [show c.id = a.id from (beq_iff_eq.mp hpc).trans hai.symm]
        exact List.mem_map_of_mem (fun a => a.id) ha
    · rcases List.mem_cons.mp ha with rfl | ha
      · simp [hai] at hnc
      · exact ih hnd.2 hfind ha

/-- A row rewrite that preserves a boolean predicate row by row preserves the
filter count. -/
theorem length_filter_map_eq {α : Type} {f : α → α} {p : α → Bool} :
    ∀ {l : List α}, (∀ a ∈ l, p (f a) = p a) →
      ((l.map f).filter p).length = (l.filter p).length
  | [], _ => rfl
  | a :: l, h => by
    have ha := h a (List.mem_cons_self a l)
    have ih := length_filter_map_eq (fun b hb => h b (List.mem_cons_of_mem a hb))
    simp only [List.map_cons, List.filter_cons, ha]
    cases hpa : p a <;> simp [hpa, ih]

/-- A row rewrite that never turns the predicate on cannot increase the filter
count. -/
theorem length_filter_map_le {α : Type} {f : α → α} {p : α → Bool} :
    ∀ {l : List α}, (∀ a ∈ l, p (f a) = true → p a = true) →
      ((l.map f).filter p).length ≤ (l.filter p).length
  | [], _ => Nat.le_refl _
  | a :: l, h => by
    have ih := length_filter_map_le (fun b hb => h b (List.mem_cons_of_mem a hb))
    simp only [List.map_cons, List.filter_cons]
    cases hfa : p (f a) with
    | true =>
      rw [h a (List.mem_cons_self a l) hfa]
      simpa using ih
    | false =>
      cases hpa : p a <;> simp [ih, Nat.le_succ_of_le ih]

/-- Shape of a successful `assignZone`: the checks were all false and the
store gained exactly the fresh row. -/
theorem assignZone_ok_inv {s : Store} {z u n : Nat} {s1 : Store} {a : ZoneAssignment}
    (h : assignZone s z u n = .ok (s1, a)) :
    s.assignments.any (fun x => x.zone_id == z && x.status == .assigned) = false ∧
    s.assignments.any (fun x => x.zone_id == z && x.status == .in_progress) = false ∧
    s1 = { s with assignments := s.assignments ++ [⟨s.nextId, z, u, .assigned, 0, n, none⟩], nextId := s.nextId + 1 } ∧
    a = ⟨s.nextId, z, u, .assigned, 0, n, none⟩ := by
  unfold assignZone at h
  split at h
  · simp at h
  split at h
  · simp at h
  split at h
  · simp at h
  split at h
  · simp at h
  rename_i h1 h2 h3 h4
  simp only [Except.ok.injEq, Prod.mk.injEq] at h
  exact ⟨by simpa using h3, by simpa using h4, h.1.symm, h.2.symm⟩

/-- `IdsOk` is preserved by a row rewrite that keeps ids. -/
theorem idsOk_map {f : ZoneAssignment → ZoneAssignment} (hf : ∀ a, (f a).id = a.id)
    {s : Store} (h : IdsOk s) : IdsOk { s with assignments := s.assignments.map f } := by
  obtain ⟨hnd, hlt⟩ := h
  constructor
  · have : (s.assignments.map f).map (fun a => a.id) = s.assignments.map (fun a => a.id) := by
      rw [List.map_map]
      exact List.map_congr_left (fun a _ => hf a)
    simpa [this] using hnd
  · intro b hb
    obtain ⟨a, ha, rfl⟩ := List.mem_map.mp hb
    simpa [hf a] using hlt a ha

/-- `IdsOk` is preserved by every operation. -/
theorem idsOk_applyOp (s : Store) (op : Op) (h : IdsOk s) : IdsOk (applyOp s op) := by
  obtain ⟨hnd, hlt⟩ := h
  cases op with
  | assign z u n =>
    cases hr : assignZone s z u n with
    | error e => simpa [applyOp, hr] using ⟨hnd, hlt⟩
    | ok r =>
      obtain ⟨s1, a⟩ := r
      obtain ⟨-, -, rfl, rfl⟩ := assignZone_ok_inv hr
      simp only [applyOp, hr]
      constructor
      · simp only [List.map_append, List.map_cons, List.map_nil]
        rw [List.nodup_append]
        refine ⟨hnd, List.nodup_singleton _, ?_⟩
        intro x hx hy
        obtain ⟨b, hb, rfl⟩ := List.mem_map.mp hx
        simp only [List.mem_singleton] at hy
        exact absurd hy (Nat.ne_of_lt (hlt b hb))
      · intro b hb
        rcases List.mem_append.mp hb with hb | hb
        · exact Nat.lt_succ_of_lt (hlt b hb)
        · simp only [List.mem_singleton] at hb
          subst hb
          exact Nat.lt_succ_self _
  | progress i p =>
    cases hfind : s.assignments.find? (fun a => a.id == i) with
    | none =>
      have : updateProgress s i p = .error .AssignmentNotFound := by
        unfold updateProgress
        rw [hfind]
      simpa [applyOp, this] using ⟨hnd, hlt⟩
    | some a0 =>
      simp only [applyOp, updateProgress_ok s i p a0 hfind]
      exact idsOk_map (progressUpdateRow_id i p _) ⟨hnd, hlt⟩
  | complete i n =>
    cases hfind : s.assignments.find? (fun a => a.id == i) with
    | none =>
      have : completeZone s i n = .error .AssignmentNotFound := by
        unfold completeZone
        rw [hfind]
      simpa [applyOp, this] using ⟨hnd, hlt⟩
    | some a0 =>
      by_cases hst : a0.status = .completed
      · have : completeZone s i n = .error .AlreadyCompleted := by
          unfold completeZone
          rw [hfind]
          simp [hst]
        simpa [applyOp, this] using ⟨hnd, hlt⟩
      · simp only [applyOp, completeZone_ok s i n a0 hfind hst]
        exact idsOk_map (completeRow_id i n) ⟨hnd, hlt⟩

end FieldTracker

namespace FieldTracker

/-- Each operation keeps every zone at no more than one active assignment. -/
theorem activeCount_applyOp_le (s : Store) (op : Op) (hIds : IdsOk s) (z : Nat)
    (hs : activeCount s z ≤ 1) : activeCount (applyOp s op) z ≤ 1 := by
  cases op with
  | assign zo u n =>
    cases hr : assignZone s zo u n with
    | error e => simpa [applyOp, hr] using hs
    | ok r =>
      obtain ⟨s1, a⟩ := r
      obtain ⟨h1, h2, rfl, rfl⟩ := assignZone_ok_inv hr
      simp only [applyOp, hr, activeCount]
      rw [List.filter_append, List.length_append]
      by_cases hz : z = zo
      · subst hz
        have hempty : s.assignments.filter (fun a => a.zone_id == z && isActive a) = [] := by
          rw [List.filter_eq_nil_iff]
          intro a ha hp
          simp only [List.any_eq_false, Bool.and_eq_true, beq_iff_eq, not_and] at h1 h2
          simp only [Bool.and_eq_true, beq_iff_eq, isActive, Bool.or_eq_true] at hp
          obtain ⟨hzz, hact⟩ := hp
          rcases hact with hA | hI
          · exact h1 a ha hzz hA
          · exact h2 a ha hzz hI
        rw [hempty]
        simp [isActive]
      · have : ((⟨s.nextId, zo, u, .assigned, 0, n, none⟩ : ZoneAssignment).zone_id == z) = false := by
          simp [Ne.symm hz]
        simp only [List.filter_cons, List.filter_nil, this, Bool.false_and]
        simpa [activeCount] using hs
  | progress i p =>
    cases hfind : s.assignments.find? (fun a => a.id == i) with
    | none =>
      have herr : updateProgress s i p = .error .AssignmentNotFound := by
        unfold updateProgress
        rw [hfind]
      simpa [applyOp, herr] using hs
    | some a0 =>
      simp only [applyOp, updateProgress_ok s i p a0 hfind]
      have heq : activeCount { s with assignments := s.assignments.map (progressUpdateRow i p (if a0.status == AssignmentStatus.assigned then AssignmentStatus.in_progress else a0.status)) } z = activeCount s z := by
        unfold activeCount
        apply length_filter_map_eq
        intro a ha
        unfold progressUpdateRow
        by_cases hid : (a.id == i) = true
        · obtain rfl : a = a0 := eq_find?_of_nodup hIds.1 hfind ha (beq_iff_eq.mp hid)
          rw [if_pos hid]
          cases hst : a.status <;> simp [isActive, hst]
        · rw [if_neg hid]
      rw [heq]
      exact hs
  | complete i n =>
    cases hfind : s.assignments.find? (fun a => a.id == i) with
    | none =>
      have herr : completeZone s i n = .error .AssignmentNotFound := by
        unfold completeZone
        rw [hfind]
      simpa [applyOp, herr] using hs
    | some a0 =>
      by_cases hst : a0.status = .completed
      · have herr : completeZone s i n = .error .AlreadyCompleted := by
          unfold completeZone
          rw [hfind]
          simp [hst]
        simpa [applyOp, herr] using hs
      · simp only [applyOp, completeZone_ok s i n a0 hfind hst]
        have hle : activeCount { s with assignments := s.assignments.map (completeRow i n) } z ≤ activeCount s z := by
          unfold activeCount
          apply length_filter_map_le
          intro a ha hp
          unfold completeRow at hp
          by_cases hid : (a.id == i) = true
          · rw [if_pos hid] at hp
            simp [isActive] at hp
          · rwa [if_neg hid] at hp
        exact Nat.le_trans hle hs

/-- Each operation preserves the `completed_at`-iff-`completed` invariant. -/
theorem completedAtOk_applyOp (s : Store) (op : Op) (hIds : IdsOk s)
    (h : CompletedAtOk s) : CompletedAtOk (applyOp s op) := by
  cases op with
  | assign zo u n =>
    cases hr : assignZone s zo u n with
    | error e =>
      intro b hb
      exact h b (by simpa [applyOp, hr] using hb)
    | ok r =>
      obtain ⟨s1, a⟩ := r
      obtain ⟨-, -, rfl, rfl⟩ := assignZone_ok_inv hr
      intro b hb
      simp only [applyOp, hr] at hb
      rcases List.mem_append.mp hb with hb | hb
      · exact h b hb
      · simp only [List.mem_singleton] at hb
        subst hb
        simp
  | progress i p =>
    cases hfind : s.assignments.find? (fun a => a.id == i) with
    | none =>
      have herr : updateProgress s i p = .error .AssignmentNotFound := by
        unfold updateProgress
        rw [hfind]
      intro b hb
      exact h b (by simpa [applyOp, herr] using hb)
    | some a0 =>
      intro b hb
      simp only [applyOp, updateProgress_ok s i p a0 hfind] at hb
      obtain ⟨a, ha, rfl⟩ := List.mem_map.mp hb
      unfold progressUpdateRow
      by_cases hid : (a.id == i) = true
      · obtain rfl : a = a0 := eq_find?_of_nodup hIds.1 hfind ha (beq_iff_eq.mp hid)
        rw [if_pos hid]
        have hiff := h a ha
        cases hst : a.status <;> simp [hst] at hiff ⊢ <;> simp [hiff]
      · rw [if_neg hid]
        exact h a ha
  | complete i n =>
    cases hfind : s.assignments.find? (fun a => a.id == i) with
    | none =>
      have herr : completeZone s i n = .error .AssignmentNotFound := by
        unfold completeZone
        rw [hfind]
      intro b hb
      exact h b (by simpa [applyOp, herr] using hb)
    | some a0 =>
      by_cases hst : a0.status = .completed
      · have herr : completeZone s i n = .error .AlreadyCompleted := by
          unfold completeZone
          rw [hfind]
          simp [hst]
        intro b hb
        exact h b (by simpa [applyOp, herr] using hb)
      · intro b hb
        simp only [applyOp, completeZone_ok s i n a0 hfind hst] at hb
        obtain ⟨a, ha, rfl⟩ := List.mem_map.mp hb
        unfold completeRow
        by_cases hid : (a.id == i) = true
        · rw [if_pos hid]
          simp
        · rw [if_neg hid]
          exact h a ha

/-- The three state-machine invariants hold along every run that starts from a
store with no assignments. -/
theorem invariants_runOps (zones users : List Nat) (tasks : List PoiTask) (nextId : Nat)
    (ops : List Op) :
    IdsOk (runOps (initialStore zones users tasks nextId) ops) ∧
    (∀ z, activeCount (runOps (initialStore zones users tasks nextId) ops) z ≤ 1) ∧
    CompletedAtOk (runOps (initialStore zones users tasks nextId) ops) := by
  suffices h : ∀ (ops : List Op) (s : Store), IdsOk s → (∀ z, activeCount s z ≤ 1) →
      CompletedAtOk s → IdsOk (runOps s ops) ∧ (∀ z, activeCount (runOps s ops) z ≤ 1) ∧
      CompletedAtOk (runOps s ops) by
    refine h ops (initialStore zones users tasks nextId) ?_ ?_ ?_
    · exact ⟨by simp [initialStore], by simp [initialStore]⟩
    · intro z
      simp [activeCount, initialStore]
    · intro a ha
      simp [initialStore] at ha
  intro ops
  induction ops with
  | nil => exact fun s h1 h2 h3 => ⟨h1, h2, h3⟩
  | cons op ops ih =>
    intro s h1 h2 h3
    have hstep := ih (applyOp s op) (idsOk_applyOp s op h1)
      (fun z => activeCount_applyOp_le s op h1 z (h2 z)) (completedAtOk_applyOp s op h1 h3)
    simpa [runOps, List.foldl_cons] using hstep

end FieldTracker

namespace FieldTracker

/-- C1: starting from a store with no assignments, every zone has at most one
active (`assigned` or `in_progress`) assignment after any sequence of
`assignZone`, `updateProgress` and `completeZone` calls: `assignZone` rejects
when an active assignment exists, `updateProgress` only moves `assigned` to
`in_progress`, and `completeZone` only removes activity. -/
theorem zone_exclusivity (zones users : List Nat) (tasks : List PoiTask) (nextId : Nat)
    (ops : List Op) (z : Nat) :
    activeCount (runOps (initialStore zones users tasks nextId) ops) z ≤ 1 :=
  (invariants_runOps zones users tasks nextId ops).2.1 z

/-- C9: every zone assignment reachable from a store with no assignments
satisfies `completed_at ≠ null ↔ status = completed`: `assignZone` creates
rows with status `assigned` and null `completed_at`, `completeZone` sets both
together, and `updateProgress` changes neither side of the biconditional. -/
theorem completedAt_iff_completed (zones users : List Nat) (tasks : List PoiTask)
    (nextId : Nat) (ops : List Op) :
    ∀ a ∈ (runOps (initialStore zones users tasks nextId) ops).assignments,
      (a.completed_at ≠ none ↔ a.status = .completed) :=
  (invariants_runOps zones users tasks nextId ops).2.2

/-- Witness for `completedAt_iff_completed`: the single assignment produced by
assigning zone 1 to user 2 and then completing it at time 4. -/
theorem completedAt_iff_completed_witness :
    ((⟨5, 1, 2, .completed, 0, 0, some 4⟩ : ZoneAssignment).completed_at ≠ none ↔
      (⟨5, 1, 2, .completed, 0, 0, some 4⟩ : ZoneAssignment).status = .completed) :=
  completedAt_iff_completed [1] [2] [] 5 [.assign 1 2 0, .complete 5 4]
    ⟨5, 1, 2, .completed, 0, 0, some 4⟩ (by decide)

end FieldTracker

namespace FieldTracker

/-! ## Geometry validator -/

/-- `typeof v === 'number'` holds exactly of numbers. -/
theorem isNumber_iff (j : Json) : j.isNumber = true ↔ ∃ n, j = .num n := by
  cases j <;> simp [Json.isNumber]

/-- A coordinate passes iff it is an array whose first two entries are numbers
(any further entries are unconstrained). -/
theorem validCoord_iff (c : Json) :
    validCoord c = true ↔
      ∃ (n0 n1 : Int) (rest : List Json), c = .arr (.num n0 :: .num n1 :: rest) := by
  cases c with
  | arr xs =>
    cases xs with
    | nil => simp [validCoord]
    | cons x0 xs1 =>
      cases xs1 with
      | nil => simp [validCoord]
      | cons x1 rest =>
        constructor
        · intro h
          have h' : x0.isNumber = true ∧ x1.isNumber = true := by
            simpa [validCoord] using h
          obtain ⟨n0, rfl⟩ := (isNumber_iff x0).mp h'.1
          obtain ⟨n1, rfl⟩ := (isNumber_iff x1).mp h'.2
          exact ⟨n0, n1, rest, rfl⟩
        · rintro ⟨n0, n1, rest1, heq⟩
          obtain ⟨h0, h1, -⟩ := by simpa using heq
          subst h0
          subst h1
          simp [validCoord, Json.isNumber, List.getD]
  | null => simp [validCoord]
  | bool b => simp [validCoord]
  | num n => simp [validCoord]
  | str s => simp [validCoord]
  | obj f => simp [validCoord]

/-- A ring passes iff it is an array of at least 4 passing coordinates. -/
theorem validRing_iff (r : Json) :
    validRing r = true ↔
      ∃ coords, r = .arr coords ∧ 4 ≤ coords.length ∧ ∀ c ∈ coords, validCoord c = true := by
  cases r <;> simp [validRing, List.all_eq_true]

/-- The `type` strict-equality test passes iff the field is exactly the string
`"Polygon"`. -/
theorem isPolygonLiteral_iff (o : Option Json) :
    isPolygonLiteral o = true ↔ o = some (.str "Polygon") := by
  cases o with
  | none => simp [isPolygonLiteral]
  | some j => cases j <;> simp [isPolygonLiteral]

/-- C6 (amended): `validateGeoJSONGeometry` accepts exactly the parseable
values with `type` strictly equal to `"Polygon"` and `coordinates` a
non-empty array of rings, every ring an array of at least 4 coordinates and
every coordinate an array whose first two entries are numbers — coordinates
with more than two entries, or non-numeric trailing entries, are accepted;
every rejection yields the same boolean `false`, with no per-cause error. -/
theorem validateGeoJSONGeometry_spec (g : Option Json) :
    validateGeoJSONGeometry g = true ↔
      ∃ parsed rings, g = some parsed ∧
        parsed.get? "type" = some (.str "Polygon") ∧
        parsed.get? "coordinates" = some (.arr rings) ∧
        rings ≠ [] ∧
        ∀ r ∈ rings, ∃ coords, r = .arr coords ∧ 4 ≤ coords.length ∧
          ∀ c ∈ coords, ∃ (n0 n1 : Int) (rest : List Json),
            c = .arr (.num n0 :: .num n1 :: rest) := by
  constructor
  · intro h
    cases g with
    | none => simp [validateGeoJSONGeometry] at h
    | some parsed =>
      simp only [validateGeoJSONGeometry] at h
      split at h
      · simp at h
      split at h
      · simp at h
      rename_i hTruthy hPoly
      have htype : parsed.get? "type" = some (.str "Polygon") :=
        (isPolygonLiteral_iff _).mp (by simpa using hPoly)
      cases hco : parsed.get? "coordinates" with
      | none => rw [hco] at h; simp at h
      | some j =>
        cases j with
        | arr rings =>
          rw [hco] at h
          have h' : rings ≠ [] ∧ ∀ r ∈ rings, validRing r = true := by
            simpa using h
          refine ⟨parsed, rings, rfl, htype, hco, h'.1, fun r hr => ?_⟩
          obtain ⟨coords, rfl, hlen, hcs⟩ := (validRing_iff r).mp (h'.2 r hr)
          exact ⟨coords, rfl, hlen, fun c hc => (validCoord_iff c).mp (hcs c hc)⟩
        | null => rw [hco] at h; simp at h
        | bool b => rw [hco] at h; simp at h
        | num n => rw [hco] at h; simp at h
        | str t => rw [hco] at h; simp at h
        | obj fields => rw [hco] at h; simp at h
  · rintro ⟨parsed, rings, rfl, htype, hco, hne, hrings⟩
    have hP : "Polygon".isEmpty = false := rfl
    unfold validateGeoJSONGeometry
    dsimp only
    rw [if_neg (show ¬ ((!truthy? (parsed.get? "type") || !truthy? (parsed.get? "coordinates")) = true) by simp [truthy?, htype, hco, Json.truthy, hP])]
    rw [if_neg (show ¬ ((!isPolygonLiteral (parsed.get? "type")) = true) by simp [isPolygonLiteral_iff, htype])]
    rw [hco]
    simp only [Bool.and_eq_true, Bool.not_eq_true', List.isEmpty_eq_false,
      List.all_eq_true]
    refine ⟨hne, fun r hr => ?_⟩
    obtain ⟨coords, rfl, hlen, hcs⟩ := hrings r hr
    exact (validRing_iff _).mpr ⟨coords, rfl, hlen, fun c hc => (validCoord_iff c).mpr (hcs c hc)⟩

/-- C6 counterexample: a polygon whose coordinates are triples `[x, y, z]` —
not「exactly two numeric values」— is accepted by `validateGeoJSONGeometry`,
and every rejection is the same undifferentiated `false`. -/
theorem validateGeoJSONGeometry_accepts_triples :
    validateGeoJSONGeometry (some (.obj [("type", .str "Polygon"), ("coordinates", .arr [.arr [.arr [.num 0, .num 0, .num 7], .arr [.num 0, .num 1, .num 7], .arr [.num 1, .num 1, .num 7], .arr [.num 0, .num 0, .num 7]]])])) = true := rfl

end FieldTracker

namespace FieldTracker

/-! ## Zone update geometry checking -/

theorem applyZoneUpdate_id (input : UpdateZoneInput) (now : Nat) (z : ZoneRec) :
    (applyZoneUpdate input now z).id = z.id := by
  unfold applyZoneUpdate; split <;> rfl

theorem find?_map_id_preserving_zone {f : ZoneRec → ZoneRec}
    (hf : ∀ z, (f z).id = z.id) (l : List ZoneRec) (i : Nat) :
    (l.map f).find? (fun z => z.id == i) = (l.find? (fun z => z.id == i)).map f := by
  rw [List.find?_map]
  have hp : ((fun z : ZoneRec => z.id == i) ∘ f) = (fun z : ZoneRec => z.id == i) := by
    funext z
    simp [Function.comp, hf]
  rw [hp]

/-- C7 counterexample: a geometry whose single ring has only 2 coordinate
pairs — rejected by the creation-time validator, as the first conjunct shows —
passes `updateZone`, which succeeds and persists the new geometry (refreshing
`updated_at`), instead of failing with the ring error and leaving the zone
unmodified. -/
theorem updateZone_accepts_short_ring :
    validateGeoJSONGeometry (some (.obj [("type", .str "Polygon"), ("coordinates", .arr [.arr [.arr [.num 0, .num 0], .arr [.num 1, .num 1]]])])) = false ∧
    updateZone [⟨1, "Z", none, none, 10, 1, 0, 0⟩] ⟨1, none, none, some (some (.obj [("type", .str "Polygon"), ("coordinates", .arr [.arr [.arr [.num 0, .num 0], .arr [.num 1, .num 1]]])])), none⟩ 9 =
      .ok ([⟨1, "Z", none, some (.obj [("type", .str "Polygon"), ("coordinates", .arr [.arr [.arr [.num 0, .num 0], .arr [.num 1, .num 1]]])]), 10, 1, 0, 9⟩],
           ⟨1, "Z", none, some (.obj [("type", .str "Polygon"), ("coordinates", .arr [.arr [.arr [.num 0, .num 0], .arr [.num 1, .num 1]]])]), 10, 1, 0, 9⟩) :=
  ⟨rfl, rfl⟩

/-- C7 (amended): `updateZone` does not re-run the creation-time ring
validation; its inline check only demands that a provided geometry parse,
have `type` strictly `"Polygon"` and a non-empty array `coordinates`. Any such
geometry — regardless of its rings — is accepted and persisted on the
matching zone. -/
theorem updateZone_geometry_check_ignores_rings (zones : List ZoneRec)
    (input : UpdateZoneInput) (now : Nat) (g : Json) (z0 : ZoneRec)
    (hz : zones.find? (fun z => z.id == input.id) = some z0)
    (hg : input.geometry = some (some g))
    (htype : g.get? "type" = some (.str "Polygon"))
    (hrings : ∃ rings, g.get? "coordinates" = some (.arr rings) ∧ rings ≠ []) :
    ∃ zs1 z1, updateZone zones input now = .ok (zs1, z1) ∧
      z1.geometry = some g ∧ zs1 = zones.map (applyZoneUpdate input now) := by
  obtain ⟨rings, hco, hne⟩ := hrings
  have hP : "Polygon".isEmpty = false := rfl
  have hcheck : updateZoneValidateGeometry (some g) = .ok () := by
    unfold updateZoneValidateGeometry
    dsimp only
    rw [if_neg (show ¬ ((!truthy? (g.get? "type") || !isPolygonLiteral (g.get? "type") || !truthy? (g.get? "coordinates")) = true) by simp [truthy?, htype, hco, Json.truthy, hP, isPolygonLiteral_iff])]
    rw [hco]
    simp [hne]
  have hid : (z0.id == input.id) = true := by
    have := List.find?_some hz
    simpa using this
  unfold updateZone
  rw [hz]
  dsimp only
  rw [hg]
  dsimp only
  rw [hcheck]
  dsimp only
  rw [find?_map_id_preserving_zone (applyZoneUpdate_id input now) zones input.id, hz]
  refine ⟨_, _, rfl, ?_, rfl⟩
  unfold applyZoneUpdate
  rw [if_pos hid]
  simp [hg]

/-- Witness for `updateZone_geometry_check_ignores_rings`: the 2-point-ring
update from the counterexample, passed through the amended theorem. -/
theorem updateZone_geometry_check_ignores_rings_witness :
    ∃ zs1 z1, updateZone [⟨1, "Z", none, none, 10, 1, 0, 0⟩] ⟨1, none, none, some (some (.obj [("type", .str "Polygon"), ("coordinates", .arr [.arr [.arr [.num 0, .num 0], .arr [.num 1, .num 1]]])])), none⟩ 9 = .ok (zs1, z1) ∧
      z1.geometry = some (.obj [("type", .str "Polygon"), ("coordinates", .arr [.arr [.arr [.num 0, .num 0], .arr [.num 1, .num 1]]])]) ∧
      zs1 = [⟨1, "Z", none, none, 10, 1, 0, 0⟩].map (applyZoneUpdate ⟨1, none, none, some (some (.obj [("type", .str "Polygon"), ("coordinates", .arr [.arr [.arr [.num 0, .num 0], .arr [.num 1, .num 1]]])])), none⟩ 9) :=
  updateZone_geometry_check_ignores_rings _ _ 9 _ ⟨1, "Z", none, none, 10, 1, 0, 0⟩
    rfl rfl rfl ⟨_, rfl, by simp⟩

end FieldTracker

namespace FieldTracker

/-! ## Proximity query -/

/-- C8: with the per-row distance abstracted as `distanceKm`, `getNearbyPois`
returns exactly the POIs within `radiusKm` of the center (inclusive boundary,
radius defaulting to 5), as unmodified records, ordered ascending by distance
with ties kept in input order, and the empty sequence — never an error — when
nothing matches. -/
theorem getNearbyPois_contract (distanceKm : Poi → Rat) (radiusKm : Option Rat)
    (pois : List Poi) :
    (∀ p, p ∈ getNearbyPois distanceKm radiusKm pois ↔
      p ∈ pois ∧ distanceKm p ≤ radiusKm.getD 5) ∧
    (getNearbyPois distanceKm radiusKm pois).Perm
      (pois.filter (fun p => decide (distanceKm p ≤ radiusKm.getD 5))) ∧
    (getNearbyPois distanceKm radiusKm pois).Pairwise
      (fun a b => distanceKm a ≤ distanceKm b) ∧
    (∀ d : Rat, (getNearbyPois distanceKm radiusKm pois).filter
        (fun p => decide (distanceKm p = d)) =
      (pois.filter (fun p => decide (distanceKm p ≤ radiusKm.getD 5))).filter
        (fun p => decide (distanceKm p = d))) ∧
    getNearbyPois distanceKm none pois = getNearbyPois distanceKm (some 5) pois ∧
    ((∀ p ∈ pois, ¬ distanceKm p ≤ radiusKm.getD 5) →
      getNearbyPois distanceKm radiusKm pois = []) := by
  have htrans : ∀ (a b c : Poi), decide (distanceKm a ≤ distanceKm b) →
      decide (distanceKm b ≤ distanceKm c) → decide (distanceKm a ≤ distanceKm c) := by
    intro a b c hab hbc
    exact decide_eq_true (le_trans (of_decide_eq_true hab) (of_decide_eq_true hbc))
  have htotal : ∀ (a b : Poi),
      decide (distanceKm a ≤ distanceKm b) || decide (distanceKm b ≤ distanceKm a) := by
    intro a b
    rcases le_total (distanceKm a) (distanceKm b) with h | h <;> simp [h]
  unfold getNearbyPois
  dsimp only
  refine ⟨?_, List.mergeSort_perm _ _, ?_, ?_, rfl, ?_⟩
  · intro p
    rw [List.mem_mergeSort, List.mem_filter]
    simp
  · exact (List.sorted_mergeSort htrans htotal _).imp (fun h => of_decide_eq_true h)
  · intro d
    have hsubl : List.Sublist ((pois.filter (fun p => decide (distanceKm p ≤ radiusKm.getD 5))).filter (fun p => decide (distanceKm p = d))) ((pois.filter (fun p => decide (distanceKm p ≤ radiusKm.getD 5))).mergeSort (fun a b => decide (distanceKm a ≤ distanceKm b))) := by
      apply List.sublist_mergeSort htrans htotal
      · apply List.pairwise_of_forall_mem_list
        intro a ha b hb
        have hda : distanceKm a = d := of_decide_eq_true (List.mem_filter.mp ha).2
        have hdb : distanceKm b = d := of_decide_eq_true (List.mem_filter.mp hb).2
        exact decide_eq_true (le_of_eq (hda.trans hdb.symm))
      · exact List.filter_sublist _
    have h1 : List.Sublist ((pois.filter (fun p => decide (distanceKm p ≤ radiusKm.getD 5))).filter (fun p => decide (distanceKm p = d))) (((pois.filter (fun p => decide (distanceKm p ≤ radiusKm.getD 5))).mergeSort (fun a b => decide (distanceKm a ≤ distanceKm b))).filter (fun p => decide (distanceKm p = d))) := by
      have h0 := List.Sublist.filter (fun p => decide (distanceKm p = d)) hsubl
      rwa [List.filter_eq_self.mpr (fun a ha => (List.mem_filter.mp ha).2)] at h0
    have h2 : (((pois.filter (fun p => decide (distanceKm p ≤ radiusKm.getD 5))).mergeSort (fun a b => decide (distanceKm a ≤ distanceKm b))).filter (fun p => decide (distanceKm p = d))).length =
        ((pois.filter (fun p => decide (distanceKm p ≤ radiusKm.getD 5))).filter (fun p => decide (distanceKm p = d))).length :=
      ((List.mergeSort_perm _ _).filter _).length_eq
    exact (h1.eq_of_length h2.symm).symm
  · intro h
    have hnil : pois.filter (fun p => decide (distanceKm p ≤ radiusKm.getD 5)) = [] := by
      rw [List.filter_eq_nil_iff]
      intro p hp
      simpa using h p hp
    rw [hnil]
    exact List.mergeSort_nil

/-- Witness for `getNearbyPois_contract`: with every candidate farther than
the default radius, the result is empty. -/
theorem getNearbyPois_contract_witness :
    getNearbyPois (fun p => p.latitude) none [⟨1, "a", none, 10, 0, .other, 1, 0, 0⟩, ⟨2, "b", none, 7, 0, .wall, 1, 0, 0⟩] = [] :=
  (getNearbyPois_contract (fun p => p.latitude) none [⟨1, "a", none, 10, 0, .other, 1, 0, 0⟩, ⟨2, "b", none, 7, 0, .wall, 1, 0, 0⟩]).2.2.2.2.2 (by decide)

end FieldTracker
